import Mathlib

/-!
Verification of the recursive translation engine of `app/main.py`
(directus-translator).

The Python module walks an arbitrary JSON-like value and translates its
string leaves through an external text-generation service
(`translate_text_with_prompt`), reassembling the structure
(`recursive_translate`).  We embed the JSON data model and both functions
shallowly.  The external service call and the standard-library JSON parser
(`json.loads`) are modelled as explicit function parameters, so all theorems
quantify over every possible behaviour of those collaborators; concrete
test scenarios instantiate them with stubs.
-/

/-- The JSON-like values `recursive_translate` operates on: Python dicts
(insertion-ordered key/value lists with string keys), lists, strings, and
the remaining scalars (numbers, booleans, None). -/
inductive JsonValue where
  | obj : List (String × JsonValue) → JsonValue
  | arr : List JsonValue → JsonValue
  | str : String → JsonValue
  | num : Int → JsonValue
  | bool : Bool → JsonValue
  | null : JsonValue

/-- Exceptions that can escape the embedded code: `HTTPException status detail`
raised by `translate_text_with_prompt`, and the `AttributeError` raised when
`.get` is called on a non-dict parse result in `recursive_translate`. -/
inductive PyError where
  | httpException : Nat → String → PyError
  | attributeError : PyError
  deriving DecidableEq

/-- Outcome of one call to the external chat-completion service:
a completion text, a provider-level `openai.APIError`, or any other
exception raised during the call path. -/
inductive ServiceOutcome where
  | ok : String → ServiceOutcome
  | apiError : String → ServiceOutcome
  | otherError : String → ServiceOutcome

/-- The external text-generation service, as a function of the system prompt
and the user prompt.  (The fixed model id and the zero sampling temperature
of the source are internal to this collaborator.) -/
def Service := String → String → ServiceOutcome

/-- Model of the standard-library JSON parser `json.loads`: `none` stands for
a raised `json.JSONDecodeError`, `some v` for a successful parse. -/
def JsonLoads := String → Option JsonValue

/-- Model of the Python string method `strip()`: drop leading and trailing
whitespace. -/
def pyStrip (s : String) : String :=
  String.mk (((s.toList.dropWhile Char.isWhitespace).reverse.dropWhile
    Char.isWhitespace).reverse)

/-- The system prompt built by `translate_text_with_prompt` (source lines
56-82; the surrounding indentation whitespace of the Python f-string is not
reproduced).  No claim depends on its exact wording: it is the fixed
instruction handed to the external service. -/
def systemPrompt (targetLanguage : String) : String :=
  "You are an expert translator specializing in English to " ++ targetLanguage
    ++ " translations.\n" ++
  "Your task is to provide an accurate and natural-sounding translation while preserving\n" ++
  "the original meaning and tone of the text.\n\n" ++
  "Please follow these instructions carefully:\n\n" ++
  "1. Translate the content into Modern Standard Arabic, ensuring grammatical\n" ++
  "   correctness and appropriate vocabulary usage.\n" ++
  "2. Maintain the original formatting, including paragraphs, line breaks, and any\n" ++
  "   special characters or punctuation marks.\n" ++
  "3. Keep proper nouns, brand names, and technical terms in their original form.\n" ++
  "4. For idiomatic expressions or culturally specific references, find an Arabic\n" ++
  "   equivalent that conveys the same meaning. If no suitable equivalent exists,\n" ++
  "   translate the meaning rather than providing a literal translation.\n" ++
  "5. After completing the translation, review it to ensure accuracy, fluency,\n" ++
  "   and naturalness in Arabic.\n\n" ++
  "Your final output must be in the specified JSON format:\n\n" ++
  "\x7b\n" ++
  "    \"arabic_translation\": \"Your Arabic translation here\",\n" ++
  "    \"translation_notes\": \"Any relevant notes or explanations about the translation, if necessary\"\n" ++
  "\x7d\n\n" ++
  "Remember to provide a high-quality translation that accurately conveys the meaning and tone of the original English content in fluent, natural-sounding Arabic."

/-- The user prompt built by `translate_text_with_prompt` (source line 85). -/
def userPrompt (text : String) : String :=
  "Here is the English content to be translated:\n\n" ++ text

/-- Embedding of `translate_text_with_prompt` (source lines 44-106): call the
service with the two prompts; on success return the stripped completion, on
`openai.APIError` raise HTTPException 502, on any other exception raise
HTTPException 500. -/
def translateTextWithPrompt (service : Service) (text : String)
    (targetLanguage : String) : Except PyError String :=
  match service (systemPrompt targetLanguage) (userPrompt text) with
  | .ok content => .ok (pyStrip content)
  | .apiError e => .error (.httpException 502 ("OpenAI API error: " ++ e))
  | .otherError e => .error (.httpException 500 ("Unexpected error: " ++ e))

mutual

/-- Embedding of `recursive_translate` (source lines 109-145).  The result is
instrumented with the list of texts passed to `translate_text_with_prompt`,
in call order (the source has no such list; it is needed to state the claims
about which leaves are, or are not, forwarded to the translator).
`Except.error` models an uncaught exception propagating out of the call. -/
def recursiveTranslate (service : Service) (jsonLoads : JsonLoads)
    (targetLanguage : String) : JsonValue → Except PyError (JsonValue × List String)
  | .obj kvs =>
    match translateDict service jsonLoads targetLanguage kvs with
    | .error e => .error e
    | .ok (ps, log) => .ok (.obj ps, log)
  | .arr items =>
    match translateList service jsonLoads targetLanguage items with
    | .error e => .error e
    | .ok (ys, log) => .ok (.arr ys, log)
  | v => .ok (v, [])

/-- The dict branch of `recursive_translate` (source lines 120-139), one
key/value pair per step, in insertion order: dict/list values recurse;
string values are sent to `translate_text_with_prompt`, the response is
JSON-parsed, and on a dict parse the `"arabic_translation"` entry (defaulting
to the original string) replaces the leaf, a non-dict parse raises
AttributeError from `.get`, a parse failure substitutes the raw response;
other values are kept as is. -/
def translateDict (service : Service) (jsonLoads : JsonLoads)
    (targetLanguage : String) :
    List (String × JsonValue) → Except PyError (List (String × JsonValue) × List String)
  | [] => .ok ([], [])
  | (key, value) :: rest =>
    match value with
    | .obj kvs =>
      match recursiveTranslate service jsonLoads targetLanguage (.obj kvs) with
      | .error e => .error e
      | .ok (w, l1) =>
        match translateDict service jsonLoads targetLanguage rest with
        | .error e => .error e
        | .ok (ps, l2) => .ok ((key, w) :: ps, l1 ++ l2)
    | .arr xs =>
      match recursiveTranslate service jsonLoads targetLanguage (.arr xs) with
      | .error e => .error e
      | .ok (w, l1) =>
        match translateDict service jsonLoads targetLanguage rest with
        | .error e => .error e
        | .ok (ps, l2) => .ok ((key, w) :: ps, l1 ++ l2)
    | .str s =>
      match translateTextWithPrompt service s targetLanguage with
      | .error e => .error e
      | .ok translatedTranslation =>
        match
          (match jsonLoads translatedTranslation with
           | none => Except.ok (JsonValue.str translatedTranslation)
           | some (.obj m) =>
             Except.ok ((m.lookup "arabic_translation").getD (JsonValue.str s))
           | some _ => Except.error PyError.attributeError) with
        | .error e => .error e
        | .ok w =>
          match translateDict service jsonLoads targetLanguage rest with
          | .error e => .error e
          | .ok (ps, l2) => .ok ((key, w) :: ps, s :: l2)
    | v =>
      match translateDict service jsonLoads targetLanguage rest with
      | .error e => .error e
      | .ok (ps, l2) => .ok ((key, v) :: ps, l2)

/-- The list branch of `recursive_translate` (source lines 140-142): translate
each element in order via `recursive_translate`. -/
def translateList (service : Service) (jsonLoads : JsonLoads)
    (targetLanguage : String) : List JsonValue → Except PyError (List JsonValue × List String)
  | [] => .ok ([], [])
  | item :: rest =>
    match recursiveTranslate service jsonLoads targetLanguage item with
    | .error e => .error e
    | .ok (w, l1) =>
      match translateList service jsonLoads targetLanguage rest with
      | .error e => .error e
      | .ok (ys, l2) => .ok (w :: ys, l1 ++ l2)

end

mutual

/-- The string leaves that sit in dict-value position of a `JsonValue`, in the
traversal order of `recursive_translate`.  These are exactly the leaves the
source hands to `translate_text_with_prompt`. -/
def dictValStrings : JsonValue → List String
  | .obj kvs => dictValStringsDict kvs
  | .arr xs => dictValStringsList xs
  | _ => []

/-- `dictValStrings` over the entries of a dict. -/
def dictValStringsDict : List (String × JsonValue) → List String
  | [] => []
  | (_, .obj kvs) :: rest => dictValStrings (.obj kvs) ++ dictValStringsDict rest
  | (_, .arr xs) :: rest => dictValStrings (.arr xs) ++ dictValStringsDict rest
  | (_, .str s) :: rest => s :: dictValStringsDict rest
  | (_, _) :: rest => dictValStringsDict rest

/-- `dictValStrings` over the elements of a list. -/
def dictValStringsList : List JsonValue → List String
  | [] => []
  | x :: rest => dictValStrings x ++ dictValStringsList rest

end

mutual

/-- Modelled from the spec (§8 Shape preservation), for comparison with the
code: the two trees have identical key sets and key order in every Object,
identical length and element order in every Array, and the identical variant
at every position, with only String leaves possibly changed in value. -/
def specShapeEq : JsonValue → JsonValue → Bool
  | .obj kvs, .obj kvs' => specShapeEqDict kvs kvs'
  | .arr xs, .arr ys => specShapeEqList xs ys
  | .str _, .str _ => true
  | .num n, .num n' => n == n'
  | .bool b, .bool b' => b == b'
  | .null, .null => true
  | _, _ => false

/-- `specShapeEq` over dict entries. -/
def specShapeEqDict : List (String × JsonValue) → List (String × JsonValue) → Bool
  | [], [] => true
  | (k, v) :: r, (k', v') :: r' => k == k' && specShapeEq v v' && specShapeEqDict r r'
  | _, _ => false

/-- `specShapeEq` over list elements. -/
def specShapeEqList : List JsonValue → List JsonValue → Bool
  | [], [] => true
  | x :: r, y :: r' => specShapeEq x y && specShapeEqList r r'
  | _, _ => false

end

mutual

/-- The shape relation `recursive_translate` actually preserves: key sets and
order of every dict, length and order of every list, and the exact value at
every position, except that a string leaf in dict-value position may be
replaced by an arbitrary `JsonValue` (whatever the parsed response holds
under `"arabic_translation"`, or a raw-response string). -/
inductive ShapeMatch : JsonValue → JsonValue → Prop where
  | obj : ∀ {kvs kvs'}, DictMatch kvs kvs' → ShapeMatch (.obj kvs) (.obj kvs')
  | arr : ∀ {xs ys}, ListMatch xs ys → ShapeMatch (.arr xs) (.arr ys)
  | str : ∀ {s}, ShapeMatch (.str s) (.str s)
  | num : ∀ {n}, ShapeMatch (.num n) (.num n)
  | bool : ∀ {b}, ShapeMatch (.bool b) (.bool b)
  | null : ShapeMatch .null .null

/-- `ShapeMatch` over dict entries: keys coincide pairwise; a string value may
turn into anything, other values match recursively. -/
inductive DictMatch : List (String × JsonValue) → List (String × JsonValue) → Prop where
  | nil : DictMatch [] []
  | consStr : ∀ {k s w rest rest'}, DictMatch rest rest' →
      DictMatch ((k, .str s) :: rest) ((k, w) :: rest')
  | cons : ∀ {k v w rest rest'}, ShapeMatch v w → DictMatch rest rest' →
      DictMatch ((k, v) :: rest) ((k, w) :: rest')

/-- `ShapeMatch` over list elements, pairwise. -/
inductive ListMatch : List JsonValue → List JsonValue → Prop where
  | nil : ListMatch [] []
  | cons : ∀ {x y rest rest'}, ShapeMatch x y → ListMatch rest rest' →
      ListMatch (x :: rest) (y :: rest')

end

mutual

/-- Fuel-indexed variant of `recursiveTranslate`: every recursive step burns
one unit of fuel; `none` means the fuel ran out.  Used to state that the
recursion of the source terminates within `sizeOf` many steps. -/
def recursiveTranslateFuel (service : Service) (jsonLoads : JsonLoads)
    (targetLanguage : String) :
    Nat → JsonValue → Option (Except PyError (JsonValue × List String))
  | 0, _ => none
  | n + 1, .obj kvs =>
    match translateDictFuel service jsonLoads targetLanguage n kvs with
    | none => none
    | some (.error e) => some (.error e)
    | some (.ok (ps, log)) => some (.ok (.obj ps, log))
  | n + 1, .arr items =>
    match translateListFuel service jsonLoads targetLanguage n items with
    | none => none
    | some (.error e) => some (.error e)
    | some (.ok (ys, log)) => some (.ok (.arr ys, log))
  | _ + 1, v => some (.ok (v, []))

/-- Fuel-indexed variant of `translateDict`. -/
def translateDictFuel (service : Service) (jsonLoads : JsonLoads)
    (targetLanguage : String) :
    Nat → List (String × JsonValue) →
      Option (Except PyError (List (String × JsonValue) × List String))
  | 0, _ => none
  | _ + 1, [] => some (.ok ([], []))
  | n + 1, (key, value) :: rest =>
    match value with
    | .obj kvs =>
      match recursiveTranslateFuel service jsonLoads targetLanguage n (.obj kvs) with
      | none => none
      | some (.error e) => some (.error e)
      | some (.ok (w, l1)) =>
        match translateDictFuel service jsonLoads targetLanguage n rest with
        | none => none
        | some (.error e) => some (.error e)
        | some (.ok (ps, l2)) => some (.ok ((key, w) :: ps, l1 ++ l2))
    | .arr xs =>
      match recursiveTranslateFuel service jsonLoads targetLanguage n (.arr xs) with
      | none => none
      | some (.error e) => some (.error e)
      | some (.ok (w, l1)) =>
        match translateDictFuel service jsonLoads targetLanguage n rest with
        | none => none
        | some (.error e) => some (.error e)
        | some (.ok (ps, l2)) => some (.ok ((key, w) :: ps, l1 ++ l2))
    | .str s =>
      match translateTextWithPrompt service s targetLanguage with
      | .error e => some (.error e)
      | .ok translatedTranslation =>
        match
          (match jsonLoads translatedTranslation with
           | none => Except.ok (JsonValue.str translatedTranslation)
           | some (.obj m) =>
             Except.ok ((m.lookup "arabic_translation").getD (JsonValue.str s))
           | some _ => Except.error PyError.attributeError) with
        | .error e => some (.error e)
        | .ok w =>
          match translateDictFuel service jsonLoads targetLanguage n rest with
          | none => none
          | some (.error e) => some (.error e)
          | some (.ok (ps, l2)) => some (.ok ((key, w) :: ps, s :: l2))
    | v =>
      match translateDictFuel service jsonLoads targetLanguage n rest with
      | none => none
      | some (.error e) => some (.error e)
      | some (.ok (ps, l2)) => some (.ok ((key, v) :: ps, l2))

/-- Fuel-indexed variant of `translateList`. -/
def translateListFuel (service : Service) (jsonLoads : JsonLoads)
    (targetLanguage : String) :
    Nat → List JsonValue → Option (Except PyError (List JsonValue × List String))
  | 0, _ => none
  | _ + 1, [] => some (.ok ([], []))
  | n + 1, item :: rest =>
    match recursiveTranslateFuel service jsonLoads targetLanguage n item with
    | none => none
    | some (.error e) => some (.error e)
    | some (.ok (w, l1)) =>
      match translateListFuel service jsonLoads targetLanguage n rest with
      | none => none
      | some (.error e) => some (.error e)
      | some (.ok (ys, l2)) => some (.ok (w :: ys, l1 ++ l2))

end

/-- Every `JsonValue` has positive size. -/
theorem JsonValue.sizeOf_pos (v : JsonValue) : 0 < sizeOf v := by
  cases v <;> simp

/-- Structural induction principle for `JsonValue` with membership hypotheses
for the values nested in the dict and list constructors, obtained by strong
induction on `sizeOf`. -/
theorem JsonValue.inductionOn (motive : JsonValue → Prop)
    (hobj : ∀ kvs : List (String × JsonValue),
      (∀ k v, (k, v) ∈ kvs → motive v) → motive (JsonValue.obj kvs))
    (harr : ∀ xs : List JsonValue, (∀ x ∈ xs, motive x) → motive (JsonValue.arr xs))
    (hstr : ∀ s, motive (JsonValue.str s))
    (hnum : ∀ n, motive (JsonValue.num n))
    (hbool : ∀ b, motive (JsonValue.bool b))
    (hnull : motive JsonValue.null) : ∀ v, motive v := by
  have key : ∀ n, ∀ v : JsonValue, sizeOf v ≤ n → motive v := by
    intro n
    induction n with
    | zero =>
      intro v hv
      exact absurd hv (by have := JsonValue.sizeOf_pos v; omega)
    | succ n ih =>
      intro v hv
      cases v with
      | obj kvs =>
        refine hobj kvs fun k v hkv => ih v ?_
        have h1 : sizeOf (k, v) < sizeOf kvs := List.sizeOf_lt_of_mem hkv
        have h2 : sizeOf v < sizeOf (k, v) := by
          simp only [Prod.mk.sizeOf_spec]
          omega
        simp only [JsonValue.obj.sizeOf_spec] at hv
        omega
      | arr xs =>
        refine harr xs fun x hx => ih x ?_
        have h1 : sizeOf x < sizeOf xs := List.sizeOf_lt_of_mem hx
        simp only [JsonValue.arr.sizeOf_spec] at hv
        omega
      | str s => exact hstr s
      | num i => exact hnum i
      | bool b => exact hbool b
      | null => exact hnull
  exact fun v => key (sizeOf v) v le_rfl

/-- If a dict contributes no dict-value strings and each nested value
translates to itself with an empty call log, so does the whole entry list. -/
theorem translateDict_no_dictstr (service : Service) (jsonLoads : JsonLoads)
    (tl : String) :
    ∀ kvs : List (String × JsonValue),
      (∀ k v, (k, v) ∈ kvs → dictValStrings v = [] →
        recursiveTranslate service jsonLoads tl v = .ok (v, [])) →
      dictValStringsDict kvs = [] →
      translateDict service jsonLoads tl kvs = .ok (kvs, []) := by
  intro kvs
  induction kvs with
  | nil => intro _ _; simp [translateDict]
  | cons kv rest ih =>
    obtain ⟨k, v⟩ := kv
    intro hel hdvs
    have hrestel : ∀ k' v', (k', v') ∈ rest → dictValStrings v' = [] →
        recursiveTranslate service jsonLoads tl v' = .ok (v', []) :=
      fun k' v' h => hel k' v' (List.mem_cons_of_mem _ h)
    cases v with
    | obj kvs' =>
      simp only [dictValStringsDict, List.append_eq_nil] at hdvs
      have hv := hel k (.obj kvs') (List.mem_cons_self _ _) hdvs.1
      have hr := ih hrestel hdvs.2
      simp [translateDict, hv, hr]
    | arr xs =>
      simp only [dictValStringsDict, List.append_eq_nil] at hdvs
      have hv := hel k (.arr xs) (List.mem_cons_self _ _) hdvs.1
      have hr := ih hrestel hdvs.2
      simp [translateDict, hv, hr]
    | str s =>
      simp only [dictValStringsDict] at hdvs
      exact absurd hdvs (List.cons_ne_nil _ _)
    | num n =>
      simp only [dictValStringsDict] at hdvs
      have hr := ih hrestel hdvs
      simp [translateDict, hr]
    | bool b =>
      simp only [dictValStringsDict] at hdvs
      have hr := ih hrestel hdvs
      simp [translateDict, hr]
    | null =>
      simp only [dictValStringsDict] at hdvs
      have hr := ih hrestel hdvs
      simp [translateDict, hr]

/-- If a list contributes no dict-value strings and each element translates
to itself with an empty call log, so does the whole list. -/
theorem translateList_no_dictstr (service : Service) (jsonLoads : JsonLoads)
    (tl : String) :
    ∀ xs : List JsonValue,
      (∀ x ∈ xs, dictValStrings x = [] →
        recursiveTranslate service jsonLoads tl x = .ok (x, [])) →
      dictValStringsList xs = [] →
      translateList service jsonLoads tl xs = .ok (xs, []) := by
  intro xs
  induction xs with
  | nil => intro _ _; simp [translateList]
  | cons x rest ih =>
    intro hel hdvs
    simp only [dictValStringsList, List.append_eq_nil] at hdvs
    have hv := hel x (List.mem_cons_self _ _) hdvs.1
    have hr := ih (fun x' h => hel x' (List.mem_cons_of_mem _ h)) hdvs.2
    simp [translateList, hv, hr]

/-- A tree with no dict-value string leaf is returned unchanged, with no
translator call, by every service and every parser. -/
theorem recursiveTranslate_no_dictstr (service : Service) (jsonLoads : JsonLoads)
    (tl : String) :
    ∀ v : JsonValue, dictValStrings v = [] →
      recursiveTranslate service jsonLoads tl v = .ok (v, []) := by
  intro v
  induction v using JsonValue.inductionOn with
  | hobj kvs ih =>
    intro hdvs
    simp only [dictValStrings] at hdvs
    have h := translateDict_no_dictstr service jsonLoads tl kvs ih hdvs
    simp [recursiveTranslate, h]
  | harr xs ih =>
    intro hdvs
    simp only [dictValStrings] at hdvs
    have h := translateList_no_dictstr service jsonLoads tl xs ih hdvs
    simp [recursiveTranslate, h]
  | hstr s => intro _; simp [recursiveTranslate]
  | hnum n => intro _; simp [recursiveTranslate]
  | hbool b => intro _; simp [recursiveTranslate]
  | hnull => intro _; simp [recursiveTranslate]

/-- Entry lists: on success, `translateDict` returns a `DictMatch`-shaped list
and logs exactly the dict-value strings of its entries. -/
theorem translateDict_ok_spec (service : Service) (jsonLoads : JsonLoads)
    (tl : String) :
    ∀ kvs : List (String × JsonValue),
      (∀ k v, (k, v) ∈ kvs → ∀ W log,
        recursiveTranslate service jsonLoads tl v = .ok (W, log) →
        ShapeMatch v W ∧ log = dictValStrings v) →
      ∀ ps log, translateDict service jsonLoads tl kvs = .ok (ps, log) →
        DictMatch kvs ps ∧ log = dictValStringsDict kvs := by
  intro kvs
  induction kvs with
  | nil =>
    intro _ ps log h
    simp only [translateDict, Except.ok.injEq, Prod.mk.injEq] at h
    obtain ⟨h1, h2⟩ := h
    subst h1
    subst h2
    exact ⟨DictMatch.nil, by simp [dictValStringsDict]⟩
  | cons kv rest ih =>
    obtain ⟨k, v⟩ := kv
    intro hel ps log h
    have helhead := hel k v (List.mem_cons_self _ _)
    have ihr := ih fun k' v' hm => hel k' v' (List.mem_cons_of_mem _ hm)
    cases v with
    | obj kvs' =>
      simp only [translateDict] at h
      cases hrt : recursiveTranslate service jsonLoads tl (.obj kvs') with
      | error e => simp [hrt] at h
      | ok pair =>
        obtain ⟨w, l1⟩ := pair
        simp only [hrt] at h
        cases hrest : translateDict service jsonLoads tl rest with
        | error e => simp [hrest] at h
        | ok pair2 =>
          obtain ⟨ps2, l2⟩ := pair2
          simp only [hrest, Except.ok.injEq, Prod.mk.injEq] at h
          obtain ⟨hps, hlog⟩ := h
          subst hps
          subst hlog
          have hhead := helhead w l1 hrt
          have hr := ihr ps2 l2 hrest
          refine ⟨DictMatch.cons hhead.1 hr.1, ?_⟩
          simp only [dictValStringsDict]
          rw [hhead.2, hr.2]
    | arr xs =>
      simp only [translateDict] at h
      cases hrt : recursiveTranslate service jsonLoads tl (.arr xs) with
      | error e => simp [hrt] at h
      | ok pair =>
        obtain ⟨w, l1⟩ := pair
        simp only [hrt] at h
        cases hrest : translateDict service jsonLoads tl rest with
        | error e => simp [hrest] at h
        | ok pair2 =>
          obtain ⟨ps2, l2⟩ := pair2
          simp only [hrest, Except.ok.injEq, Prod.mk.injEq] at h
          obtain ⟨hps, hlog⟩ := h
          subst hps
          subst hlog
          have hhead := helhead w l1 hrt
          have hr := ihr ps2 l2 hrest
          refine ⟨DictMatch.cons hhead.1 hr.1, ?_⟩
          simp only [dictValStringsDict]
          rw [hhead.2, hr.2]
    | str s =>
      simp only [translateDict] at h
      cases httw : translateTextWithPrompt service s tl with
      | error e => simp [httw] at h
      | ok raw =>
        simp only [httw] at h
        cases hload : jsonLoads raw with
        | none =>
          simp only [hload] at h
          cases hrest : translateDict service jsonLoads tl rest with
          | error e => simp [hrest] at h
          | ok pair2 =>
            obtain ⟨ps2, l2⟩ := pair2
            simp only [hrest, Except.ok.injEq, Prod.mk.injEq] at h
            obtain ⟨hps, hlog⟩ := h
            subst hps
            subst hlog
            have hr := ihr ps2 l2 hrest
            refine ⟨DictMatch.consStr hr.1, ?_⟩
            simp only [dictValStringsDict]
            rw [hr.2]
        | some w =>
          cases w with
          | obj m =>
            simp only [hload] at h
            cases hrest : translateDict service jsonLoads tl rest with
            | error e => simp [hrest] at h
            | ok pair2 =>
              obtain ⟨ps2, l2⟩ := pair2
              simp only [hrest, Except.ok.injEq, Prod.mk.injEq] at h
              obtain ⟨hps, hlog⟩ := h
              subst hps
              subst hlog
              have hr := ihr ps2 l2 hrest
              refine ⟨DictMatch.consStr hr.1, ?_⟩
              simp only [dictValStringsDict]
              rw [hr.2]
          | arr xs => simp [hload] at h
          | str s' => simp [hload] at h
          | num n => simp [hload] at h
          | bool b => simp [hload] at h
          | null => simp [hload] at h
    | num n =>
      simp only [translateDict] at h
      cases hrest : translateDict service jsonLoads tl rest with
      | error e => simp [hrest] at h
      | ok pair2 =>
        obtain ⟨ps2, l2⟩ := pair2
        simp only [hrest, Except.ok.injEq, Prod.mk.injEq] at h
        obtain ⟨hps, hlog⟩ := h
        subst hps
        subst hlog
        have hr := ihr ps2 l2 hrest
        refine ⟨DictMatch.cons ShapeMatch.num hr.1, ?_⟩
        simp only [dictValStringsDict]
        rw [hr.2]
    | bool b =>
      simp only [translateDict] at h
      cases hrest : translateDict service jsonLoads tl rest with
      | error e => simp [hrest] at h
      | ok pair2 =>
        obtain ⟨ps2, l2⟩ := pair2
        simp only [hrest, Except.ok.injEq, Prod.mk.injEq] at h
        obtain ⟨hps, hlog⟩ := h
        subst hps
        subst hlog
        have hr := ihr ps2 l2 hrest
        refine ⟨DictMatch.cons ShapeMatch.bool hr.1, ?_⟩
        simp only [dictValStringsDict]
        rw [hr.2]
    | null =>
      simp only [translateDict] at h
      cases hrest : translateDict service jsonLoads tl rest with
      | error e => simp [hrest] at h
      | ok pair2 =>
        obtain ⟨ps2, l2⟩ := pair2
        simp only [hrest, Except.ok.injEq, Prod.mk.injEq] at h
        obtain ⟨hps, hlog⟩ := h
        subst hps
        subst hlog
        have hr := ihr ps2 l2 hrest
        refine ⟨DictMatch.cons ShapeMatch.null hr.1, ?_⟩
        simp only [dictValStringsDict]
        rw [hr.2]

/-- Lists: on success, `translateList` returns a `ListMatch`-shaped list and
logs exactly the dict-value strings of its elements. -/
theorem translateList_ok_spec (service : Service) (jsonLoads : JsonLoads)
    (tl : String) :
    ∀ xs : List JsonValue,
      (∀ x ∈ xs, ∀ W log,
        recursiveTranslate service jsonLoads tl x = .ok (W, log) →
        ShapeMatch x W ∧ log = dictValStrings x) →
      ∀ ys log, translateList service jsonLoads tl xs = .ok (ys, log) →
        ListMatch xs ys ∧ log = dictValStringsList xs := by
  intro xs
  induction xs with
  | nil =>
    intro _ ys log h
    simp only [translateList, Except.ok.injEq, Prod.mk.injEq] at h
    obtain ⟨h1, h2⟩ := h
    subst h1
    subst h2
    exact ⟨ListMatch.nil, by simp [dictValStringsList]⟩
  | cons x rest ih =>
    intro hel ys log h
    have helhead := hel x (List.mem_cons_self _ _)
    have ihr := ih fun x' hm => hel x' (List.mem_cons_of_mem _ hm)
    simp only [translateList] at h
    cases hrt : recursiveTranslate service jsonLoads tl x with
    | error e => simp [hrt] at h
    | ok pair =>
      obtain ⟨w, l1⟩ := pair
      simp only [hrt] at h
      cases hrest : translateList service jsonLoads tl rest with
      | error e => simp [hrest] at h
      | ok pair2 =>
        obtain ⟨ys2, l2⟩ := pair2
        simp only [hrest, Except.ok.injEq, Prod.mk.injEq] at h
        obtain ⟨hys, hlog⟩ := h
        subst hys
        subst hlog
        have hhead := helhead w l1 hrt
        have hr := ihr ys2 l2 hrest
        refine ⟨ListMatch.cons hhead.1 hr.1, ?_⟩
        simp only [dictValStringsList]
        rw [hhead.2, hr.2]

/-- Whenever `recursive_translate` returns, the output is `ShapeMatch`-related
to the input and the texts sent to the translator are exactly the dict-value
string leaves of the input, in traversal order. -/
theorem recursiveTranslate_ok_spec (service : Service) (jsonLoads : JsonLoads)
    (tl : String) :
    ∀ v W log, recursiveTranslate service jsonLoads tl v = .ok (W, log) →
      ShapeMatch v W ∧ log = dictValStrings v := by
  intro v
  induction v using JsonValue.inductionOn with
  | hobj kvs ih =>
    intro W log h
    simp only [recursiveTranslate] at h
    cases htd : translateDict service jsonLoads tl kvs with
    | error e => simp [htd] at h
    | ok pair =>
      obtain ⟨ps, lg⟩ := pair
      simp only [htd, Except.ok.injEq, Prod.mk.injEq] at h
      obtain ⟨hW, hlog⟩ := h
      subst hW
      subst hlog
      have hspec := translateDict_ok_spec service jsonLoads tl kvs ih ps lg htd
      exact ⟨ShapeMatch.obj hspec.1, by simp only [dictValStrings]; exact hspec.2⟩
  | harr xs ih =>
    intro W log h
    simp only [recursiveTranslate] at h
    cases htd : translateList service jsonLoads tl xs with
    | error e => simp [htd] at h
    | ok pair =>
      obtain ⟨ys, lg⟩ := pair
      simp only [htd, Except.ok.injEq, Prod.mk.injEq] at h
      obtain ⟨hW, hlog⟩ := h
      subst hW
      subst hlog
      have hspec := translateList_ok_spec service jsonLoads tl xs ih ys lg htd
      exact ⟨ShapeMatch.arr hspec.1, by simp only [dictValStrings]; exact hspec.2⟩
  | hstr s =>
    intro W log h
    simp only [recursiveTranslate, Except.ok.injEq, Prod.mk.injEq] at h
    obtain ⟨hW, hlog⟩ := h
    subst hW
    subst hlog
    exact ⟨ShapeMatch.str, by simp [dictValStrings]⟩
  | hnum n =>
    intro W log h
    simp only [recursiveTranslate, Except.ok.injEq, Prod.mk.injEq] at h
    obtain ⟨hW, hlog⟩ := h
    subst hW
    subst hlog
    exact ⟨ShapeMatch.num, by simp [dictValStrings]⟩
  | hbool b =>
    intro W log h
    simp only [recursiveTranslate, Except.ok.injEq, Prod.mk.injEq] at h
    obtain ⟨hW, hlog⟩ := h
    subst hW
    subst hlog
    exact ⟨ShapeMatch.bool, by simp [dictValStrings]⟩
  | hnull =>
    intro W log h
    simp only [recursiveTranslate, Except.ok.injEq, Prod.mk.injEq] at h
    obtain ⟨hW, hlog⟩ := h
    subst hW
    subst hlog
    exact ⟨ShapeMatch.null, by simp [dictValStrings]⟩

/-- The external service never returns a completion (every call raises). -/
def serviceAlwaysFails (service : Service) : Prop :=
  ∀ sp up c, service sp up ≠ .ok c

/-- Under a failing service, `translate_text_with_prompt` always raises. -/
theorem translateTextWithPrompt_fails {service : Service}
    (h : serviceAlwaysFails service) (text tl : String) :
    ∃ e, translateTextWithPrompt service text tl = .error e := by
  unfold translateTextWithPrompt
  cases hsvc : service (systemPrompt tl) (userPrompt text) with
  | ok c => exact absurd hsvc (h _ _ c)
  | apiError e => exact ⟨_, rfl⟩
  | otherError e => exact ⟨_, rfl⟩

/-- Under a failing service, a dict with at least one dict-value string leaf
propagates the first exception. -/
theorem translateDict_allfail (service : Service) (jsonLoads : JsonLoads)
    (tl : String) (hfail : serviceAlwaysFails service) :
    ∀ kvs : List (String × JsonValue),
      (∀ k v, (k, v) ∈ kvs → dictValStrings v ≠ [] →
        ∃ e, recursiveTranslate service jsonLoads tl v = .error e) →
      dictValStringsDict kvs ≠ [] →
      ∃ e, translateDict service jsonLoads tl kvs = .error e := by
  intro kvs
  induction kvs with
  | nil => intro _ hdvs; exact absurd (by simp [dictValStringsDict]) hdvs
  | cons kv rest ih =>
    obtain ⟨k, v⟩ := kv
    intro hel hdvs
    have ihr := ih fun k' v' hm => hel k' v' (List.mem_cons_of_mem _ hm)
    cases v with
    | obj kvs' =>
      by_cases hin : dictValStrings (.obj kvs') = []
      · have hok := recursiveTranslate_no_dictstr service jsonLoads tl (.obj kvs') hin
        simp only [dictValStringsDict, hin, List.nil_append] at hdvs
        obtain ⟨e, he⟩ := ihr hdvs
        exact ⟨e, by simp [translateDict, hok, he]⟩
      · obtain ⟨e, he⟩ := hel k (.obj kvs') (List.mem_cons_self _ _) hin
        exact ⟨e, by simp [translateDict, he]⟩
    | arr xs =>
      by_cases hin : dictValStrings (.arr xs) = []
      · have hok := recursiveTranslate_no_dictstr service jsonLoads tl (.arr xs) hin
        simp only [dictValStringsDict, hin, List.nil_append] at hdvs
        obtain ⟨e, he⟩ := ihr hdvs
        exact ⟨e, by simp [translateDict, hok, he]⟩
      · obtain ⟨e, he⟩ := hel k (.arr xs) (List.mem_cons_self _ _) hin
        exact ⟨e, by simp [translateDict, he]⟩
    | str s =>
      obtain ⟨e, he⟩ := translateTextWithPrompt_fails hfail s tl
      exact ⟨e, by simp [translateDict, he]⟩
    | num n =>
      simp only [dictValStringsDict] at hdvs
      obtain ⟨e, he⟩ := ihr hdvs
      exact ⟨e, by simp [translateDict, he]⟩
    | bool b =>
      simp only [dictValStringsDict] at hdvs
      obtain ⟨e, he⟩ := ihr hdvs
      exact ⟨e, by simp [translateDict, he]⟩
    | null =>
      simp only [dictValStringsDict] at hdvs
      obtain ⟨e, he⟩ := ihr hdvs
      exact ⟨e, by simp [translateDict, he]⟩

/-- Under a failing service, a list containing a dict-value string leaf
propagates the first exception. -/
theorem translateList_allfail (service : Service) (jsonLoads : JsonLoads)
    (tl : String) :
    ∀ xs : List JsonValue,
      (∀ x ∈ xs, dictValStrings x ≠ [] →
        ∃ e, recursiveTranslate service jsonLoads tl x = .error e) →
      dictValStringsList xs ≠ [] →
      ∃ e, translateList service jsonLoads tl xs = .error e := by
  intro xs
  induction xs with
  | nil => intro _ hdvs; exact absurd (by simp [dictValStringsList]) hdvs
  | cons x rest ih =>
    intro hel hdvs
    have ihr := ih fun x' hm => hel x' (List.mem_cons_of_mem _ hm)
    by_cases hin : dictValStrings x = []
    · have hok := recursiveTranslate_no_dictstr service jsonLoads tl x hin
      simp only [dictValStringsList, hin, List.nil_append] at hdvs
      obtain ⟨e, he⟩ := ihr hdvs
      exact ⟨e, by simp [translateList, hok, he]⟩
    · obtain ⟨e, he⟩ := hel x (List.mem_cons_self _ _) hin
      exact ⟨e, by simp [translateList, he]⟩

/-- Under a failing service, a tree with at least one dict-value string leaf
makes `recursive_translate` raise. -/
theorem recursiveTranslate_allfail (service : Service) (jsonLoads : JsonLoads)
    (tl : String) (hfail : serviceAlwaysFails service) :
    ∀ v : JsonValue, dictValStrings v ≠ [] →
      ∃ e, recursiveTranslate service jsonLoads tl v = .error e := by
  intro v
  induction v using JsonValue.inductionOn with
  | hobj kvs ih =>
    intro hdvs
    simp only [dictValStrings] at hdvs
    obtain ⟨e, he⟩ := translateDict_allfail service jsonLoads tl hfail kvs ih hdvs
    exact ⟨e, by simp [recursiveTranslate, he]⟩
  | harr xs ih =>
    intro hdvs
    simp only [dictValStrings] at hdvs
    obtain ⟨e, he⟩ := translateList_allfail service jsonLoads tl xs ih hdvs
    exact ⟨e, by simp [recursiveTranslate, he]⟩
  | hstr s => intro hdvs; exact absurd (by simp [dictValStrings]) hdvs
  | hnum n => intro hdvs; exact absurd (by simp [dictValStrings]) hdvs
  | hbool b => intro hdvs; exact absurd (by simp [dictValStrings]) hdvs
  | hnull => intro hdvs; exact absurd (by simp [dictValStrings]) hdvs

/-- Whether a `JsonValue` is a dict (the only parse results whose Python
counterpart has a `.get` method). -/
def JsonValue.isObject : JsonValue → Bool
  | .obj _ => true
  | _ => false

/-- The translator call for `s` succeeds, and its raw response parses as
valid JSON whose top-level value is not a JSON object. -/
def nonObjectResponse (service : Service) (jsonLoads : JsonLoads)
    (tl s : String) : Prop :=
  ∃ raw, translateTextWithPrompt service s tl = .ok raw ∧
    ∃ w, jsonLoads raw = some w ∧ w.isObject = false

/-- If every dict-value string of a dict draws a successful but non-object
JSON response and there is at least one, `translateDict` raises
AttributeError. -/
theorem translateDict_badparse (service : Service) (jsonLoads : JsonLoads)
    (tl : String) :
    ∀ kvs : List (String × JsonValue),
      (∀ k v, (k, v) ∈ kvs →
        (∀ s ∈ dictValStrings v, nonObjectResponse service jsonLoads tl s) →
        dictValStrings v ≠ [] →
        recursiveTranslate service jsonLoads tl v = .error .attributeError) →
      (∀ s ∈ dictValStringsDict kvs, nonObjectResponse service jsonLoads tl s) →
      dictValStringsDict kvs ≠ [] →
      translateDict service jsonLoads tl kvs = .error .attributeError := by
  intro kvs
  induction kvs with
  | nil => intro _ _ hdvs; exact absurd (by simp [dictValStringsDict]) hdvs
  | cons kv rest ih =>
    obtain ⟨k, v⟩ := kv
    intro hel hbad hdvs
    have ihr := ih fun k' v' hm => hel k' v' (List.mem_cons_of_mem _ hm)
    cases v with
    | obj kvs' =>
      simp only [dictValStringsDict] at hbad hdvs
      by_cases hin : dictValStrings (.obj kvs') = []
      · have hok := recursiveTranslate_no_dictstr service jsonLoads tl (.obj kvs') hin
        rw [hin, List.nil_append] at hbad hdvs
        have hr := ihr hbad hdvs
        simp [translateDict, hok, hr]
      · have hr := hel k (.obj kvs') (List.mem_cons_self _ _)
          (fun s hs => hbad s (List.mem_append_left _ hs)) hin
        simp [translateDict, hr]
    | arr xs =>
      simp only [dictValStringsDict] at hbad hdvs
      by_cases hin : dictValStrings (.arr xs) = []
      · have hok := recursiveTranslate_no_dictstr service jsonLoads tl (.arr xs) hin
        rw [hin, List.nil_append] at hbad hdvs
        have hr := ihr hbad hdvs
        simp [translateDict, hok, hr]
      · have hr := hel k (.arr xs) (List.mem_cons_self _ _)
          (fun s hs => hbad s (List.mem_append_left _ hs)) hin
        simp [translateDict, hr]
    | str s =>
      simp only [dictValStringsDict] at hbad
      obtain ⟨raw, hraw, w, hw, hnonobj⟩ := hbad s (List.mem_cons_self _ _)
      cases w with
      | obj m => simp [JsonValue.isObject] at hnonobj
      | arr xs => simp [translateDict, hraw, hw]
      | str s' => simp [translateDict, hraw, hw]
      | num n => simp [translateDict, hraw, hw]
      | bool b => simp [translateDict, hraw, hw]
      | null => simp [translateDict, hraw, hw]
    | num n =>
      simp only [dictValStringsDict] at hbad hdvs
      have hr := ihr hbad hdvs
      simp [translateDict, hr]
    | bool b =>
      simp only [dictValStringsDict] at hbad hdvs
      have hr := ihr hbad hdvs
      simp [translateDict, hr]
    | null =>
      simp only [dictValStringsDict] at hbad hdvs
      have hr := ihr hbad hdvs
      simp [translateDict, hr]

/-- List counterpart of `translateDict_badparse`. -/
theorem translateList_badparse (service : Service) (jsonLoads : JsonLoads)
    (tl : String) :
    ∀ xs : List JsonValue,
      (∀ x ∈ xs,
        (∀ s ∈ dictValStrings x, nonObjectResponse service jsonLoads tl s) →
        dictValStrings x ≠ [] →
        recursiveTranslate service jsonLoads tl x = .error .attributeError) →
      (∀ s ∈ dictValStringsList xs, nonObjectResponse service jsonLoads tl s) →
      dictValStringsList xs ≠ [] →
      translateList service jsonLoads tl xs = .error .attributeError := by
  intro xs
  induction xs with
  | nil => intro _ _ hdvs; exact absurd (by simp [dictValStringsList]) hdvs
  | cons x rest ih =>
    intro hel hbad hdvs
    have ihr := ih fun x' hm => hel x' (List.mem_cons_of_mem _ hm)
    simp only [dictValStringsList] at hbad hdvs
    by_cases hin : dictValStrings x = []
    · have hok := recursiveTranslate_no_dictstr service jsonLoads tl x hin
      rw [hin, List.nil_append] at hbad hdvs
      have hr := ihr hbad hdvs
      simp [translateList, hok, hr]
    · have hr := hel x (List.mem_cons_self _ _)
        (fun s hs => hbad s (List.mem_append_left _ hs)) hin
      simp [translateList, hr]

/-- If every dict-value string leaf of a tree draws a successful but
non-object JSON response and there is at least one, `recursive_translate`
raises AttributeError. -/
theorem recursiveTranslate_badparse (service : Service) (jsonLoads : JsonLoads)
    (tl : String) :
    ∀ v : JsonValue,
      (∀ s ∈ dictValStrings v, nonObjectResponse service jsonLoads tl s) →
      dictValStrings v ≠ [] →
      recursiveTranslate service jsonLoads tl v = .error .attributeError := by
  intro v
  induction v using JsonValue.inductionOn with
  | hobj kvs ih =>
    intro hbad hdvs
    simp only [dictValStrings] at hbad hdvs
    have h := translateDict_badparse service jsonLoads tl kvs ih hbad hdvs
    simp [recursiveTranslate, h]
  | harr xs ih =>
    intro hbad hdvs
    simp only [dictValStrings] at hbad hdvs
    have h := translateList_badparse service jsonLoads tl xs ih hbad hdvs
    simp [recursiveTranslate, h]
  | hstr s => intro _ hdvs; exact absurd (by simp [dictValStrings]) hdvs
  | hnum n => intro _ hdvs; exact absurd (by simp [dictValStrings]) hdvs
  | hbool b => intro _ hdvs; exact absurd (by simp [dictValStrings]) hdvs
  | hnull => intro _ hdvs; exact absurd (by simp [dictValStrings]) hdvs

/-- Every list has positive size. -/
theorem sizeOfListPos {α : Type} [SizeOf α] (l : List α) : 0 < sizeOf l := by
  cases l with
  | nil => simp
  | cons a l => simp only [List.cons.sizeOf_spec]; omega

/-- `sizeOf` fuel suffices: the fuel-indexed runs agree with the recursive
functions whenever the fuel bounds the size of the argument. -/
theorem fuelAgrees (service : Service) (jsonLoads : JsonLoads) (tl : String) :
    ∀ n : Nat,
      (∀ v : JsonValue, sizeOf v ≤ n →
        recursiveTranslateFuel service jsonLoads tl n v =
          some (recursiveTranslate service jsonLoads tl v)) ∧
      (∀ kvs : List (String × JsonValue), sizeOf kvs ≤ n →
        translateDictFuel service jsonLoads tl n kvs =
          some (translateDict service jsonLoads tl kvs)) ∧
      (∀ xs : List JsonValue, sizeOf xs ≤ n →
        translateListFuel service jsonLoads tl n xs =
          some (translateList service jsonLoads tl xs)) := by
  intro n
  induction n with
  | zero =>
    refine ⟨fun v hv => ?_, fun kvs hk => ?_, fun xs hx => ?_⟩
    · exact absurd hv (by have := JsonValue.sizeOf_pos v; omega)
    · exact absurd hk (by have := sizeOfListPos kvs; omega)
    · exact absurd hx (by have := sizeOfListPos xs; omega)
  | succ n ih =>
    refine ⟨fun v hv => ?_, fun kvs hk => ?_, fun xs hx => ?_⟩
    · cases v with
      | obj kvs =>
        have hsz : sizeOf kvs ≤ n := by
          simp only [JsonValue.obj.sizeOf_spec] at hv; omega
        have htd := ih.2.1 kvs hsz
        cases htdv : translateDict service jsonLoads tl kvs with
        | error e => simp [recursiveTranslateFuel, recursiveTranslate, htd, htdv]
        | ok pair =>
          obtain ⟨ps, lg⟩ := pair
          simp [recursiveTranslateFuel, recursiveTranslate, htd, htdv]
      | arr xs =>
        have hsz : sizeOf xs ≤ n := by
          simp only [JsonValue.arr.sizeOf_spec] at hv; omega
        have htl := ih.2.2 xs hsz
        cases htlv : translateList service jsonLoads tl xs with
        | error e => simp [recursiveTranslateFuel, recursiveTranslate, htl, htlv]
        | ok pair =>
          obtain ⟨ys, lg⟩ := pair
          simp [recursiveTranslateFuel, recursiveTranslate, htl, htlv]
      | str s => simp [recursiveTranslateFuel, recursiveTranslate]
      | num m => simp [recursiveTranslateFuel, recursiveTranslate]
      | bool b => simp [recursiveTranslateFuel, recursiveTranslate]
      | null => simp [recursiveTranslateFuel, recursiveTranslate]
    · cases kvs with
      | nil => simp [translateDictFuel, translateDict]
      | cons kv rest =>
        obtain ⟨k, v⟩ := kv
        have hrest : sizeOf rest ≤ n := by
          simp only [List.cons.sizeOf_spec, Prod.mk.sizeOf_spec] at hk; omega
        have hv : sizeOf v ≤ n := by
          simp only [List.cons.sizeOf_spec, Prod.mk.sizeOf_spec] at hk; omega
        have h2 := ih.2.1 rest hrest
        cases v with
        | obj kvs' =>
          have h1 := ih.1 (.obj kvs') hv
          cases hr1 : recursiveTranslate service jsonLoads tl (.obj kvs') with
          | error e => simp [translateDictFuel, translateDict, h1, hr1]
          | ok pair =>
            obtain ⟨w, l1⟩ := pair
            cases hr2 : translateDict service jsonLoads tl rest with
            | error e => simp [translateDictFuel, translateDict, h1, h2, hr1, hr2]
            | ok pair2 =>
              obtain ⟨ps, l2⟩ := pair2
              simp [translateDictFuel, translateDict, h1, h2, hr1, hr2]
        | arr xs' =>
          have h1 := ih.1 (.arr xs') hv
          cases hr1 : recursiveTranslate service jsonLoads tl (.arr xs') with
          | error e => simp [translateDictFuel, translateDict, h1, hr1]
          | ok pair =>
            obtain ⟨w, l1⟩ := pair
            cases hr2 : translateDict service jsonLoads tl rest with
            | error e => simp [translateDictFuel, translateDict, h1, h2, hr1, hr2]
            | ok pair2 =>
              obtain ⟨ps, l2⟩ := pair2
              simp [translateDictFuel, translateDict, h1, h2, hr1, hr2]
        | str s =>
          cases httw : translateTextWithPrompt service s tl with
          | error e => simp [translateDictFuel, translateDict, httw]
          | ok raw =>
            cases hload : jsonLoads raw with
            | none =>
              cases hr2 : translateDict service jsonLoads tl rest with
              | error e => simp [translateDictFuel, translateDict, h2, httw, hload, hr2]
              | ok pair2 =>
                obtain ⟨ps, l2⟩ := pair2
                simp [translateDictFuel, translateDict, h2, httw, hload, hr2]
            | some w =>
              cases w with
              | obj m =>
                cases hr2 : translateDict service jsonLoads tl rest with
                | error e => simp [translateDictFuel, translateDict, h2, httw, hload, hr2]
                | ok pair2 =>
                  obtain ⟨ps, l2⟩ := pair2
                  simp [translateDictFuel, translateDict, h2, httw, hload, hr2]
              | arr xs' => simp [translateDictFuel, translateDict, httw, hload]
              | str s' => simp [translateDictFuel, translateDict, httw, hload]
              | num m => simp [translateDictFuel, translateDict, httw, hload]
              | bool b => simp [translateDictFuel, translateDict, httw, hload]
              | null => simp [translateDictFuel, translateDict, httw, hload]
        | num m =>
          cases hr2 : translateDict service jsonLoads tl rest with
          | error e => simp [translateDictFuel, translateDict, h2, hr2]
          | ok pair2 =>
            obtain ⟨ps, l2⟩ := pair2
            simp [translateDictFuel, translateDict, h2, hr2]
        | bool b =>
          cases hr2 : translateDict service jsonLoads tl rest with
          | error e => simp [translateDictFuel, translateDict, h2, hr2]
          | ok pair2 =>
            obtain ⟨ps, l2⟩ := pair2
            simp [translateDictFuel, translateDict, h2, hr2]
        | null =>
          cases hr2 : translateDict service jsonLoads tl rest with
          | error e => simp [translateDictFuel, translateDict, h2, hr2]
          | ok pair2 =>
            obtain ⟨ps, l2⟩ := pair2
            simp [translateDictFuel, translateDict, h2, hr2]
    · cases xs with
      | nil => simp [translateListFuel, translateList]
      | cons x rest =>
        have hrest : sizeOf rest ≤ n := by
          simp only [List.cons.sizeOf_spec] at hx; omega
        have hxv : sizeOf x ≤ n := by
          simp only [List.cons.sizeOf_spec] at hx; omega
        have h1 := ih.1 x hxv
        have h2 := ih.2.2 rest hrest
        cases hr1 : recursiveTranslate service jsonLoads tl x with
        | error e => simp [translateListFuel, translateList, h1, hr1]
        | ok pair =>
          obtain ⟨w, l1⟩ := pair
          cases hr2 : translateList service jsonLoads tl rest with
          | error e => simp [translateListFuel, translateList, h1, h2, hr1, hr2]
          | ok pair2 =>
            obtain ⟨ys, l2⟩ := pair2
            simp [translateListFuel, translateList, h1, h2, hr1, hr2]

/-- Schema-valid stub response for the leaf "Hi". -/
def rawHi : String := "\x7b\"arabic_translation\": \"HELLO\", \"translation_notes\": \"\"\x7d"

/-- Schema-valid stub response for the leaf "a". -/
def rawA : String := "\x7b\"arabic_translation\": \"A\", \"translation_notes\": \"\"\x7d"

/-- Schema-valid stub response for the leaf "b". -/
def rawB : String := "\x7b\"arabic_translation\": \"B\", \"translation_notes\": \"\"\x7d"

/-- Stub translator of the nested-structure scenario: maps "Hi", "a" and "b"
to schema-valid responses carrying "HELLO", "A" and "B". -/
def nestedService : Service := fun _ up =>
  if up = userPrompt "Hi" then .ok rawHi
  else if up = userPrompt "a" then .ok rawA
  else if up = userPrompt "b" then .ok rawB
  else .otherError "no stub response"

/-- JSON parses of the three stub responses, per real `json.loads` semantics. -/
def nestedLoads : JsonLoads := fun s =>
  if s = rawHi then
    some (.obj [("arabic_translation", .str "HELLO"), ("translation_notes", .str "")])
  else if s = rawA then
    some (.obj [("arabic_translation", .str "A"), ("translation_notes", .str "")])
  else if s = rawB then
    some (.obj [("arabic_translation", .str "B"), ("translation_notes", .str "")])
  else none

/-- The nested-structure scenario input. -/
def nestedInput : JsonValue :=
  .obj [("title", .str "Hi"),
        ("items", .arr [.str "a", .obj [("label", .str "b")]]),
        ("count", .num 3)]

/-- The output the spec claims for the nested scenario ("a" translated). -/
def nestedClaimedOutput : JsonValue :=
  .obj [("title", .str "HELLO"),
        ("items", .arr [.str "A", .obj [("label", .str "B")]]),
        ("count", .num 3)]

/-- The output the code produces for the nested scenario ("a" untouched). -/
def nestedActualOutput : JsonValue :=
  .obj [("title", .str "HELLO"),
        ("items", .arr [.str "a", .obj [("label", .str "B")]]),
        ("count", .num 3)]

theorem pyStrip_rawHi : pyStrip rawHi = rawHi := by decide

theorem pyStrip_rawB : pyStrip rawB = rawB := by decide

theorem rawB_ne_rawHi : rawB ≠ rawHi := by decide

theorem rawB_ne_rawA : rawB ≠ rawA := by decide

/-- Evaluation of the nested scenario: "Hi" and "b" are translated, the
array-element leaf "a" passes through untranslated and never reaches the
translator. -/
theorem nestedScenario_eval :
    recursiveTranslate nestedService nestedLoads "Arabic" nestedInput =
      .ok (nestedActualOutput, ["Hi", "b"]) := by
  simp only [nestedInput, nestedActualOutput]
  simp [recursiveTranslate, translateDict, translateList, translateTextWithPrompt,
    nestedService, nestedLoads, userPrompt, List.lookup, pyStrip_rawHi, pyStrip_rawB,
    rawB_ne_rawHi, rawB_ne_rawA]

/-- A one-leaf document, the input of several leaf-level scenarios. -/
def helloInput : JsonValue := .obj [("a", .str "hello")]

/-- Stub response whose translation field is a JSON number, not a string. -/
def rawNumResp : String := "\x7b\"arabic_translation\": 5\x7d"

/-- Stub translator answering `rawNumResp` for the leaf "hello". -/
def numService : Service := fun _ up =>
  if up = userPrompt "hello" then .ok rawNumResp else .otherError "no stub response"

/-- JSON parse of `rawNumResp`, per real `json.loads` semantics. -/
def numLoads : JsonLoads := fun s =>
  if s = rawNumResp then some (.obj [("arabic_translation", .num 5)]) else none

theorem pyStrip_rawNumResp : pyStrip rawNumResp = rawNumResp := by decide

/-- Evaluation: a numeric translation field replaces the string leaf, so the
output holds a number where the input held a string. -/
theorem numScenario_eval :
    recursiveTranslate numService numLoads "Arabic" helloInput =
      .ok (.obj [("a", .num 5)], ["hello"]) := by
  simp only [helloInput]
  simp [recursiveTranslate, translateDict, translateTextWithPrompt,
    numService, numLoads, userPrompt, List.lookup, pyStrip_rawNumResp]

/-- Stub response using the key `ar_translation` of the spec scenario, not the
`arabic_translation` key the code reads. -/
def rawArX : String := "\x7b\"ar_translation\": \"X\", \"translation_notes\": \"n\"\x7d"

/-- Stub translator answering `rawArX` for the leaf "hello". -/
def arService : Service := fun _ up =>
  if up = userPrompt "hello" then .ok rawArX else .otherError "no stub response"

/-- JSON parse of `rawArX`, per real `json.loads` semantics. -/
def arLoads : JsonLoads := fun s =>
  if s = rawArX then
    some (.obj [("ar_translation", .str "X"), ("translation_notes", .str "n")])
  else none

theorem pyStrip_rawArX : pyStrip rawArX = rawArX := by decide

/-- Evaluation: the `ar_translation` key misses the code's lookup, so the
`.get` default keeps the original leaf. -/
theorem arScenario_eval :
    recursiveTranslate arService arLoads "Arabic" helloInput =
      .ok (helloInput, ["hello"]) := by
  simp only [helloInput]
  simp [recursiveTranslate, translateDict, translateTextWithPrompt,
    arService, arLoads, userPrompt, List.lookup, pyStrip_rawArX]

/-- Stub response with the expected key `arabic_translation`. -/
def rawArabicX : String := "\x7b\"arabic_translation\": \"X\", \"translation_notes\": \"n\"\x7d"

/-- Stub translator answering `rawArabicX` for the leaf "hello". -/
def arabicService : Service := fun _ up =>
  if up = userPrompt "hello" then .ok rawArabicX else .otherError "no stub response"

/-- JSON parse of `rawArabicX`, per real `json.loads` semantics. -/
def arabicLoads : JsonLoads := fun s =>
  if s = rawArabicX then
    some (.obj [("arabic_translation", .str "X"), ("translation_notes", .str "n")])
  else none

theorem pyStrip_rawArabicX : pyStrip rawArabicX = rawArabicX := by decide

/-- Evaluation: with the key the code reads, the structured translation "X"
replaces the leaf. -/
theorem arabicScenario_eval :
    recursiveTranslate arabicService arabicLoads "Arabic" helloInput =
      .ok (.obj [("a", .str "X")], ["hello"]) := by
  simp only [helloInput]
  simp [recursiveTranslate, translateDict, translateTextWithPrompt,
    arabicService, arabicLoads, userPrompt, List.lookup, pyStrip_rawArabicX]

/-- Stub response that is a valid JSON object lacking the translation key. -/
def rawNotesOnly : String := "\x7b\"translation_notes\": \"n\"\x7d"

/-- Stub translator answering `rawNotesOnly` for the leaf "hello". -/
def notesService : Service := fun _ up =>
  if up = userPrompt "hello" then .ok rawNotesOnly else .otherError "no stub response"

/-- JSON parse of `rawNotesOnly`, per real `json.loads` semantics. -/
def notesLoads : JsonLoads := fun s =>
  if s = rawNotesOnly then some (.obj [("translation_notes", .str "n")]) else none

theorem pyStrip_rawNotesOnly : pyStrip rawNotesOnly = rawNotesOnly := by decide

/-- Evaluation: a valid JSON object without the translation key keeps the
original leaf (the raw response is not substituted). -/
theorem notesScenario_eval :
    recursiveTranslate notesService notesLoads "Arabic" helloInput =
      .ok (helloInput, ["hello"]) := by
  simp only [helloInput]
  simp [recursiveTranslate, translateDict, translateTextWithPrompt,
    notesService, notesLoads, userPrompt, List.lookup, pyStrip_rawNotesOnly]

/-- Stub translator answering the non-JSON plain text "bonjour" for "hello". -/
def plainService : Service := fun _ up =>
  if up = userPrompt "hello" then .ok "bonjour" else .otherError "no stub response"

/-- Parser stub for `plainService`: "bonjour" is not valid JSON. -/
def plainLoads : JsonLoads := fun _ => none

/-- A service whose every call raises a provider-level error. -/
def failingService : Service := fun _ _ => .apiError "service down"

/-- Parser stub for services that never produce parseable output. -/
def noneLoads : JsonLoads := fun _ => none

theorem failingService_alwaysFails : serviceAlwaysFails failingService := by
  intro sp up c h
  simp [failingService] at h

/-- Stub translator answering the bare JSON number "5" for the leaf "x". -/
def fiveService : Service := fun _ up =>
  if up = userPrompt "x" then .ok "5" else .otherError "no stub response"

/-- JSON parse of "5", per real `json.loads` semantics: a number. -/
def fiveLoads : JsonLoads := fun s =>
  if s = "5" then some (.num 5) else none

/-- The one-leaf document used in the AttributeError scenario. -/
def xInput : JsonValue := .obj [("a", .str "x")]

/-- Claim C1 counterexample: in the nested-structure scenario with the
schema-valid stub translator, the code leaves the array-element leaf "a"
untranslated (and never calls the translator for it), so the output differs
from the tree the claim asserts. -/
theorem c1_counterexample :
    recursiveTranslate nestedService nestedLoads "Arabic" nestedInput =
      .ok (nestedActualOutput, ["Hi", "b"]) ∧
    nestedActualOutput ≠ nestedClaimedOutput := by
  refine ⟨nestedScenario_eval, ?_⟩
  intro h
  simp [nestedActualOutput, nestedClaimedOutput] at h

/-- Claim C1 amended: `recursive_translate` invokes the translator only on
String leaves in dict-value position; a String that is an array element or
the top-level value passes through unchanged with no translator call.  On the
nested scenario the output is the claimed tree except that "a" stays "a", and
the translator is invoked exactly on "Hi" and "b". -/
theorem c1_amended_dict_only_translation :
    (recursiveTranslate nestedService nestedLoads "Arabic" nestedInput =
      .ok (nestedActualOutput, ["Hi", "b"])) ∧
    (∀ (service : Service) (jsonLoads : JsonLoads) (lang s : String),
      recursiveTranslate service jsonLoads lang (.str s) = .ok (.str s, [])) := by
  refine ⟨nestedScenario_eval, fun service jsonLoads lang s => ?_⟩
  simp [recursiveTranslate]

/-- Claim C2 counterexample: with a translator that always fails,
`recursive_translate` on a one-string-leaf dict raises the HTTPException
instead of returning the input unchanged. -/
theorem c2_counterexample :
    recursiveTranslate failingService noneLoads "Arabic" helloInput =
      .error (.httpException 502 "OpenAI API error: service down") ∧
    ∀ log, recursiveTranslate failingService noneLoads "Arabic" helloInput ≠
      .ok (helloInput, log) := by
  have heval : recursiveTranslate failingService noneLoads "Arabic" helloInput =
      .error (.httpException 502 "OpenAI API error: service down") := by
    simp only [helloInput]
    simp [recursiveTranslate, translateDict, translateTextWithPrompt, failingService]
  exact ⟨heval, fun log h => by rw [heval] at h; exact Except.noConfusion h⟩

/-- Claim C2 amended: when every Translator call fails, `recursive_translate`
returns the tree unchanged (with no translator call) exactly when the tree has
no String leaf in dict-value position; otherwise the first such leaf's
exception propagates and the call raises instead of returning. -/
theorem c2_amended_failure_propagation (service : Service) (jsonLoads : JsonLoads)
    (tl : String) (hfail : serviceAlwaysFails service) (v : JsonValue) :
    (dictValStrings v = [] →
      recursiveTranslate service jsonLoads tl v = .ok (v, [])) ∧
    (dictValStrings v ≠ [] →
      ∃ e, recursiveTranslate service jsonLoads tl v = .error e) :=
  ⟨fun h => recursiveTranslate_no_dictstr service jsonLoads tl v h,
   fun h => recursiveTranslate_allfail service jsonLoads tl hfail v h⟩

/-- Witness for the amended C2 at concrete inputs: a dict with only a numeric
leaf comes back unchanged, a dict with a string leaf makes the call raise. -/
theorem c2_amended_failure_propagation_witness :
    recursiveTranslate failingService noneLoads "Arabic" (.obj [("n", .num 7)]) =
      .ok (.obj [("n", .num 7)], []) ∧
    ∃ e, recursiveTranslate failingService noneLoads "Arabic" helloInput =
      .error e := by
  constructor
  · exact (c2_amended_failure_propagation failingService noneLoads "Arabic"
      failingService_alwaysFails (.obj [("n", .num 7)])).1
      (by simp [dictValStrings, dictValStringsDict])
  · exact (c2_amended_failure_propagation failingService noneLoads "Arabic"
      failingService_alwaysFails helloInput).2
      (by simp [helloInput, dictValStrings, dictValStringsDict])

/-- Claim C3 counterexample: a successful response whose translation field is
the JSON number 5 replaces the String leaf by a number, so the output does not
have the identical variant at every position. -/
theorem c3_counterexample :
    recursiveTranslate numService numLoads "Arabic" helloInput =
      .ok (.obj [("a", .num 5)], ["hello"]) ∧
    specShapeEq helloInput (.obj [("a", .num 5)]) = false := by
  refine ⟨numScenario_eval, ?_⟩
  simp [helloInput, specShapeEq, specShapeEqDict]

/-- Claim C3 amended: whenever `recursive_translate` returns a tree, that tree
has the same dict key sets and order and the same array lengths and order as
the input, with the identical value at every position except String leaves in
dict-value position, which may be replaced by an arbitrary `JsonValue`. -/
theorem c3_amended_shape_relation (service : Service) (jsonLoads : JsonLoads)
    (tl : String) (v W : JsonValue) (log : List String)
    (h : recursiveTranslate service jsonLoads tl v = .ok (W, log)) :
    ShapeMatch v W :=
  (recursiveTranslate_ok_spec service jsonLoads tl v W log h).1

/-- Witness for the amended C3 at a concrete input. -/
theorem c3_amended_shape_relation_witness :
    ShapeMatch helloInput (.obj [("a", .num 5)]) :=
  c3_amended_shape_relation numService numLoads "Arabic" helloInput
    (.obj [("a", .num 5)]) ["hello"] numScenario_eval

/-- Claim C4 counterexample: with the claim's stub response keyed
`ar_translation`, the code's lookup of `arabic_translation` misses and the
`.get` default keeps the original leaf "hello", not "X". -/
theorem c4_counterexample :
    recursiveTranslate arService arLoads "Arabic" helloInput =
      .ok (helloInput, ["hello"]) ∧
    helloInput ≠ .obj [("a", .str "X")] := by
  refine ⟨arScenario_eval, ?_⟩
  intro h
  simp [helloInput] at h

/-- Claim C4 amended: the key the code extracts is `arabic_translation` (the
one its prompt requests); with a stub returning that key with value "X", the
output is the claimed one. -/
theorem c4_amended_structured_extraction :
    recursiveTranslate arabicService arabicLoads "Arabic" helloInput =
      .ok (.obj [("a", .str "X")], ["hello"]) :=
  arabicScenario_eval

/-- Claim C5 counterexample: a successful response that is a valid JSON object
lacking the translation key keeps the original leaf "hello"; the raw response
text is not substituted. -/
theorem c5_counterexample :
    recursiveTranslate notesService notesLoads "Arabic" helloInput =
      .ok (helloInput, ["hello"]) ∧
    "hello" ≠ rawNotesOnly := by
  refine ⟨notesScenario_eval, ?_⟩
  decide

/-- Claim C5 amended: for a dict-value String leaf whose translator call
succeeds, an unparsable raw response is substituted verbatim for the leaf, but
a raw response that parses to a JSON object lacking the translation key leaves
the original string in place. -/
theorem c5_amended_fallback_policy (service : Service) (jsonLoads : JsonLoads)
    (tl key s raw : String)
    (htp : translateTextWithPrompt service s tl = .ok raw) :
    (jsonLoads raw = none →
      recursiveTranslate service jsonLoads tl (.obj [(key, .str s)]) =
        .ok (.obj [(key, .str raw)], [s])) ∧
    (∀ m, jsonLoads raw = some (.obj m) →
      m.lookup "arabic_translation" = none →
      recursiveTranslate service jsonLoads tl (.obj [(key, .str s)]) =
        .ok (.obj [(key, .str s)], [s])) := by
  constructor
  · intro hload
    simp [recursiveTranslate, translateDict, htp, hload]
  · intro m hload hlook
    simp [recursiveTranslate, translateDict, htp, hload, hlook]

/-- Witness for the amended C5: the plain-text response "bonjour" replaces the
leaf verbatim; the notes-only JSON object keeps the original leaf. -/
theorem c5_amended_fallback_policy_witness :
    recursiveTranslate plainService plainLoads "Arabic" (.obj [("a", .str "hello")]) =
      .ok (.obj [("a", .str "bonjour")], ["hello"]) ∧
    recursiveTranslate notesService notesLoads "Arabic" (.obj [("a", .str "hello")]) =
      .ok (.obj [("a", .str "hello")], ["hello"]) := by
  have htp1 : translateTextWithPrompt plainService "hello" "Arabic" = .ok "bonjour" := by
    simp +decide [translateTextWithPrompt, plainService]
  have htp2 : translateTextWithPrompt notesService "hello" "Arabic" =
      .ok rawNotesOnly := by
    simp [translateTextWithPrompt, notesService, pyStrip_rawNotesOnly]
  refine ⟨(c5_amended_fallback_policy plainService plainLoads "Arabic" "a" "hello"
    "bonjour" htp1).1 rfl, ?_⟩
  exact (c5_amended_fallback_policy notesService notesLoads "Arabic" "a" "hello"
    rawNotesOnly htp2).2 [("translation_notes", .str "n")] (by simp [notesLoads])
    (by simp [List.lookup])

/-- Claim C6: whenever `recursive_translate` returns a tree, every Other leaf
(and every dict key, array length, and non-string value) is preserved
bit-identically at its position (`ShapeMatch` forces equality everywhere
except dict-value String leaves), and the texts forwarded to the translator
are exactly the dict-value string leaves, so no Other leaf is ever sent. -/
theorem c6_other_passthrough (service : Service) (jsonLoads : JsonLoads)
    (tl : String) (v W : JsonValue) (log : List String)
    (h : recursiveTranslate service jsonLoads tl v = .ok (W, log)) :
    ShapeMatch v W ∧ log = dictValStrings v :=
  recursiveTranslate_ok_spec service jsonLoads tl v W log h

/-- Witness for C6 at the nested scenario. -/
theorem c6_other_passthrough_witness :
    ShapeMatch nestedInput nestedActualOutput ∧
    ["Hi", "b"] = dictValStrings nestedInput :=
  c6_other_passthrough nestedService nestedLoads "Arabic" nestedInput
    nestedActualOutput ["Hi", "b"] nestedScenario_eval

/-- Claim C7: the empty dict and the empty list translate to themselves, with
no translator call, under every service and every parser. -/
theorem c7_empty_documents (service : Service) (jsonLoads : JsonLoads)
    (tl : String) :
    recursiveTranslate service jsonLoads tl (.obj []) = .ok (.obj [], []) ∧
    recursiveTranslate service jsonLoads tl (.arr []) = .ok (.arr [], []) := by
  constructor
  · simp [recursiveTranslate, translateDict]
  · simp [recursiveTranslate, translateList]

/-- Claim C9: if every dict-value String leaf draws a successful response that
is valid JSON with a non-object top-level value, and there is at least one
such leaf, `recursive_translate` raises an uncaught AttributeError (from
calling `.get` on a non-dict) instead of returning a tree. -/
theorem c9_attribute_error (service : Service) (jsonLoads : JsonLoads)
    (tl : String) (v : JsonValue)
    (hbad : ∀ s ∈ dictValStrings v, nonObjectResponse service jsonLoads tl s)
    (hne : dictValStrings v ≠ []) :
    recursiveTranslate service jsonLoads tl v = .error .attributeError :=
  recursiveTranslate_badparse service jsonLoads tl v hbad hne

/-- Witness for C9: the bare-number response "5" for the leaf "x" aborts the
whole call with AttributeError. -/
theorem c9_attribute_error_witness :
    recursiveTranslate fiveService fiveLoads "Arabic" xInput =
      .error .attributeError := by
  refine c9_attribute_error fiveService fiveLoads "Arabic" xInput ?_ ?_
  · intro s hs
    simp [xInput, dictValStrings, dictValStringsDict] at hs
    subst hs
    refine ⟨"5", ?_, .num 5, by simp [fiveLoads], by simp [JsonValue.isObject]⟩
    simp +decide [translateTextWithPrompt, fiveService]
  · simp [xInput, dictValStrings, dictValStringsDict]

/-- Claim C10: `recursive_translate` terminates on every finite tree: the
fuel-indexed run with `sizeOf v` fuel never exhausts its fuel and returns the
recursive result. -/
theorem c10_termination (service : Service) (jsonLoads : JsonLoads)
    (tl : String) (v : JsonValue) :
    recursiveTranslateFuel service jsonLoads tl (sizeOf v) v =
      some (recursiveTranslate service jsonLoads tl v) :=
  (fuelAgrees service jsonLoads tl (sizeOf v)).1 v le_rfl
